import Mathlib

/-!
Verification of the trading-performance analysis engine of this repository:
`analyze_address` (script_portfolio.py), `is_hyper_scraper`, `rank_by_performance`
and `deduplicate_addresses` (unified_scraper.py).

Modelling conventions (shallow embedding):
* Python floats are modelled as exact rationals (`ℚ`); the float literals
  `1.1`, `0.9`, `1e-6` of the source become `11/10`, `9/10`, `1/1000000`.
* JSON payloads are modelled by the inductive type `JVal`.  Numeric payload
  values are `JVal.num`; a numeric JSON string (which Python's `float` would
  also parse) is modelled as `JVal.num` directly, so `JVal.str` stands for the
  non-numeric strings, on which `float(...)` raises.
* A Python exception is the `Except.error ()` value; the `try/except` of
  `analyze_address` is the outer `match` in `analyze_address` below.
* `datetime` parsing and `datetime.now()` (the trader-age computation inside
  the inner `try`) are not representable, so the analyzer is parameterized by
  an arbitrary total function `ageOf`, exactly the part of the code that the
  inner bare `except: pass` makes total.  Similarly the square root used in
  `np.std` / `365**0.5` is irrational, so the analyzer takes a function
  `sqrtQ : ℚ → ℚ` standing for the real square root on the rationals that
  actually occur; the comparison `std_pnl < 1e-10` of the source is expressed
  on the variance (`std < 1e-10 ↔ variance < 1e-20`, since `std = √variance`
  and `√` is monotone on nonnegative reals), and `np.isnan(std_pnl)` is
  unsatisfiable in exact arithmetic.
-/

/-- A JSON value, as delivered by the trading-data API. -/
inductive JVal where
  | null : JVal
  | num (q : ℚ) : JVal
  | str (s : String) : JVal
  | arr (l : List JVal) : JVal
  | obj (l : List (String × JVal)) : JVal

mutual

/-- Structural equality of JSON values: Python's `==`/`!=` on parsed JSON.
(Python dict equality ignores key order; JSON objects never serve as the
dates this program compares, so assoc-list equality is used.) -/
def jeq : JVal → JVal → Bool
  | .null, .null => true
  | .num a, .num b => decide (a = b)
  | .str a, .str b => a == b
  | .arr a, .arr b => jeqArr a b
  | .obj a, .obj b => jeqObj a b
  | _, _ => false

def jeqArr : List JVal → List JVal → Bool
  | [], [] => true
  | a :: as, b :: bs => jeq a b && jeqArr as bs
  | _, _ => false

def jeqObj : List (String × JVal) → List (String × JVal) → Bool
  | [], [] => true
  | (ka, va) :: as, (kb, vb) :: bs => ka == kb && jeq va vb && jeqObj as bs
  | _, _ => false

end

/-- Python truthiness of a JSON value (`if first_date_str:`). -/
def truthy : JVal → Bool
  | .null => false
  | .num q => decide (q ≠ 0)
  | .str s => s ≠ ""
  | .arr l => !l.isEmpty
  | .obj l => !l.isEmpty

/-- Python subscripting `v[n]` on a JSON value with an integer index:
succeeds only on an array that is long enough, otherwise raises. -/
def pyIndex (v : JVal) (n : ℕ) : Except Unit JVal :=
  match v with
  | .arr l =>
    match l[n]? with
    | some x => .ok x
    | none => .error ()
  | _ => .error ()

/-- Python subscripting `v[k]` with a string key: dict lookup, `KeyError`
when absent, `TypeError` on a non-dict. -/
def pyGet (v : JVal) (k : String) : Except Unit JVal :=
  match v with
  | .obj l =>
    match l.find? (fun p => p.1 == k) with
    | some p => .ok p.2
    | none => .error ()
  | _ => .error ()

/-- Python `float(v)` on a JSON value (numeric strings are already `num`,
see the module comment). -/
def pyFloat (v : JVal) : Except Unit ℚ :=
  match v with
  | .num q => .ok q
  | _ => .error ()

/-- The history containers must be lists for `range(1, len(...))` plus
`[i]` subscripting to succeed (a dict raises `KeyError` on integer keys, a
string raises on the second subscript `[1]`). -/
def asArr (v : JVal) : Except Unit (List JVal) :=
  match v with
  | .arr l => .ok l
  | _ => .error ()

/-- Whether a JSON value may be a Python dict key (lists and dicts are
unhashable: `history[date_pnl] = ...` raises `TypeError` on them). -/
def hashableKey : JVal → Bool
  | .arr _ => false
  | .obj _ => false
  | _ => true

/-- `float(v[1])`: the value cell of a `[date, value]` pair. -/
def cellF (v : JVal) : Except Unit ℚ :=
  match pyIndex v 1 with
  | .ok x => pyFloat x
  | .error e => .error e

/-- One recorded day of `history` (the dict values built at the end of the
loop body of `analyze_address`). -/
structure DayRec where
  equity : ℚ
  pnl : ℚ
  daily_pct_pnl : ℚ
  drawdown : ℚ
  drawdown_pct : ℚ

/-- The mutable loop state of `analyze_address` (lines 111-116).  `history`
is the insertion-ordered dict keyed by the day's date. -/
structure LoopSt where
  history : List (JVal × DayRec)
  cumulative_pnl : ℚ
  running_max_cum_pnl : ℚ
  win_days : ℕ
  cum_pnl_pct : ℚ
  transfer_count : ℕ

/-- Initial loop state. -/
def initState : LoopSt :=
  { history := [], cumulative_pnl := 0, running_max_cum_pnl := 0,
    win_days := 0, cum_pnl_pct := 1, transfer_count := 0 }

/-- Python dict assignment `history[k] = v`: overwrite in place when the key
is present, append otherwise. -/
def dictInsert (k : JVal) (v : DayRec) (h : List (JVal × DayRec)) :
    List (JVal × DayRec) :=
  if h.any (fun p => jeq p.1 k) then
    h.map (fun p => if jeq p.1 k then (p.1, v) else p)
  else
    h ++ [(k, v)]

/-- The per-iteration figures read at the top of the loop body
(lines 119-123): `day_pnl`, `day_equity`, `date_pnl`, `date_equity`,
`prev_equity`. -/
structure Row where
  day_pnl : ℚ
  day_equity : ℚ
  date_pnl : JVal
  date_equity : JVal
  prev_equity : ℚ

/-- Extraction of the iteration-`i` figures given the pnl entry `pe` (which
is `pnl_history[i]`): reads `equity_history[i]` and `equity_history[i-1]`,
raising on a short equity series or malformed cells. -/
def rowAt (pe : JVal) (equity : List JVal) (i : ℕ) : Except Unit Row :=
  match equity[i]?, equity[i-1]? with
  | some ee, some pv =>
    match cellF pe, cellF ee, pyIndex pe 0, pyIndex ee 0, cellF pv with
    | .ok dp, .ok de, .ok datp, .ok date, .ok pq =>
      .ok { day_pnl := dp, day_equity := de, date_pnl := datp,
            date_equity := date, prev_equity := pq }
    | _, _, _, _, _ => .error ()
  | _, _ => .error ()

/-- `rowAt` through the pnl series: the figures of iteration `i`. -/
def rowOf (pnl equity : List JVal) (i : ℕ) : Except Unit Row :=
  match pnl[i]? with
  | some pe => rowAt pe equity i
  | none => .error ()

/-- Transfer detection (lines 129-130): `prev_equity + day_pnl` deviates
from `day_equity` by more than 10% in either direction. -/
def isTransferRow (r : Row) : Prop :=
  r.prev_equity + r.day_pnl > 11/10 * r.day_equity ∨
  r.prev_equity + r.day_pnl < 9/10 * r.day_equity

instance (r : Row) : Decidable (isTransferRow r) := by
  unfold isTransferRow; infer_instance

/-- Lines 146 and 148 in the source's order: the drawdown is taken against
the running peak BEFORE the peak is updated with today's cumulative PnL.
First component: `max(0, running_max_cum_pnl - cumulative_pnl)`; second:
the updated peak `max(running_max_cum_pnl, cumulative_pnl)`. -/
def drawdownCodeOrder (running_max cum : ℚ) : ℚ × ℚ :=
  (max 0 (running_max - cum), max running_max cum)

/-- Follows the spec's words (§4.1 step 4): the running peak is updated
first to include today's cumulative PnL, then the drawdown is taken against
the updated peak. -/
def drawdownSpecOrder (running_max cum : ℚ) : ℚ × ℚ :=
  (max 0 (max running_max cum - cum), max running_max cum)

/-- The accumulation branch of the loop body (lines 145-161): fold the day
into cumulative PnL, drawdown, returns, win count, and record it in the
dict (raising on an unhashable date key, as the dict assignment does). -/
def accumulate (s : LoopSt) (r : Row) : Except Unit LoopSt :=
  let cum := s.cumulative_pnl + r.day_pnl
  let dd := (drawdownCodeOrder s.running_max_cum_pnl cum).1
  let ddpc := if 0 < r.day_equity then dd / r.day_equity else 0
  let peak := (drawdownCodeOrder s.running_max_cum_pnl cum).2
  let daily := r.day_pnl / r.prev_equity
  if hashableKey r.date_pnl then
    .ok { history := dictInsert r.date_pnl
            { equity := r.day_equity, pnl := r.day_pnl, daily_pct_pnl := daily,
              drawdown := dd, drawdown_pct := ddpc } s.history,
          cumulative_pnl := cum,
          running_max_cum_pnl := peak,
          win_days := s.win_days + (if 0 < daily then 1 else 0),
          cum_pnl_pct := s.cum_pnl_pct * (1 + daily),
          transfer_count := s.transfer_count }
  else
    .error ()

/-- One loop-body decision (lines 125-161): skip a date-misaligned day,
count-and-skip a transfer day, return the degenerate record (`none`) when
the guard `prev_equity == 0 or transfer_count > 5` fires, otherwise
accumulate. -/
def stepRow (s : LoopSt) (r : Row) : Except Unit (Option LoopSt) :=
  if jeq r.date_pnl r.date_equity = false then
    .ok (some s)
  else if isTransferRow r then
    .ok (some { s with transfer_count := s.transfer_count + 1 })
  else if r.prev_equity = 0 ∨ s.transfer_count > 5 then
    .ok none
  else
    match accumulate s r with
    | .ok s' => .ok (some s')
    | .error e => .error e

/-- The loop `for i in range(1, len(pnl_history))`, as structural recursion
over the remaining pnl entries (`pnl_history[i:]`) with `i` carried along.
`.inl ()` is the mid-loop degenerate early return. -/
def loopGo (equity : List JVal) : List JVal → ℕ → LoopSt → Except Unit (Unit ⊕ LoopSt)
  | [], _, s => .ok (.inr s)
  | pe :: rest, i, s =>
    match rowAt pe equity i with
    | .error _ => .error ()
    | .ok r =>
      match stepRow s r with
      | .error _ => .error ()
      | .ok none => .ok (.inl ())
      | .ok (some s') => loopGo equity rest (i + 1) s'

/-- The trader-age derivation (lines 96-109).  The only uncaught exception
is the `IndexError` of `pnl_history[0][0]` on an empty first entry (line 99
is outside the inner `try`); the date parsing itself is the total function
`ageOf` (its bare `except: pass` absorbs every parse failure). -/
def ageBlock (ageOf : JVal → Option Int) (pnl : List JVal) :
    Except Unit (Option Int) :=
  match pnl with
  | [] => .ok none
  | e :: _ =>
    match e with
    | .arr [] => .error ()
    | .arr (d :: _) => .ok (if truthy d then ageOf d else none)
    | _ => .ok none

/-- Lines 92-94: `data[6][1]["pnlHistory"]` and
`data[6][1]["accountValueHistory"]`. -/
def extractData (data : JVal) : Except Unit (List JVal × List JVal) :=
  match pyIndex data 6 with
  | .error _ => .error ()
  | .ok six =>
    match pyIndex six 1 with
    | .error _ => .error ()
    | .ok pm =>
      match pyGet pm "pnlHistory", pyGet pm "accountValueHistory" with
      | .ok pj, .ok ej =>
        match asArr pj, asArr ej with
        | .ok pnl, .ok equity => .ok (pnl, equity)
        | _, _ => .error ()
      | _, _ => .error ()

/-- The metrics record returned by `analyze_address`. -/
structure Metrics where
  sharpe : ℚ
  max_drawdown : ℚ
  win_rate : ℚ
  cum_pnl_pct : ℚ
  trader_age_days : Option Int
  total_trades : ℕ

/-- The degenerate record: zeroed metrics with the given age and day
count. -/
def degenRec (age : Option Int) (trades : ℕ) : Metrics :=
  { sharpe := 0, max_drawdown := 0, win_rate := 0, cum_pnl_pct := 0,
    trader_age_days := age, total_trades := trades }

/-- `max` of a Python list (order-independent; `0` is never used since the
callers guarantee nonemptiness). -/
def listMax : List ℚ → ℚ
  | [] => 0
  | x :: xs => xs.foldl max x

/-- `min` of a Python list. -/
def listMin : List ℚ → ℚ
  | [] => 0
  | x :: xs => xs.foldl min x

/-- The recorded daily returns `[history[d]["daily_pct_pnl"] for d in
history.keys()]`. -/
def dailyList (s : LoopSt) : List ℚ :=
  s.history.map (fun p => p.2.daily_pct_pnl)

/-- `mean_pnl` (line 173): arithmetic mean of the recorded daily returns. -/
def meanOf (s : LoopSt) : ℚ :=
  (dailyList s).sum / (s.history.length : ℚ)

/-- The population variance underlying `np.std` (line 174):
`std_pnl = √(varianceOf s)`. -/
def varianceOf (s : LoopSt) : ℚ :=
  ((dailyList s).map (fun x => (x - meanOf s) ^ 2)).sum / (s.history.length : ℚ)

/-- Lines 163-194: the post-loop computation.  Fewer than 10 recorded days
gives the degenerate record carrying the recorded day count; otherwise
Sharpe (with the near-zero-std guard of line 177, expressed on the
variance: `std == 0 ∨ std < 1e-10 ↔ variance = 0 ∨ variance < 1e-20`),
max drawdown, win rate and the cumulative return multiplier. -/
def finalMetrics (sqrtQ : ℚ → ℚ) (age : Option Int) (s : LoopSt) : Metrics :=
  if s.history.length < 10 then
    degenRec age s.history.length
  else
    let sharpe :=
      if varianceOf s = 0 ∨ varianceOf s < 1 / 10 ^ 20 then 0
      else sqrtQ 365 * (meanOf s / sqrtQ (varianceOf s))
    { sharpe := sharpe,
      max_drawdown := listMax (s.history.map (fun p => p.2.drawdown_pct)),
      win_rate := (s.win_days : ℚ) / (s.history.length : ℚ),
      cum_pnl_pct := s.cum_pnl_pct,
      trader_age_days := age,
      total_trades := s.history.length }

/-- The body of `analyze_address`'s `try` block. -/
def analyzeE (sqrtQ : ℚ → ℚ) (ageOf : JVal → Option Int) (data : JVal) :
    Except Unit Metrics :=
  match extractData data with
  | .error _ => .error ()
  | .ok (pnl, equity) =>
    match ageBlock ageOf pnl with
    | .error _ => .error ()
    | .ok age =>
      match loopGo equity (pnl.drop 1) 1 initState with
      | .error _ => .error ()
      | .ok (.inl _) => .ok (degenRec age 0)
      | .ok (.inr s) => .ok (finalMetrics sqrtQ age s)

/-- `analyze_address` (lines 89-204): any exception inside the `try` block
yields the degenerate record with unset age and day count 0. -/
def analyze_address (sqrtQ : ℚ → ℚ) (ageOf : JVal → Option Int) (data : JVal) :
    Metrics :=
  match analyzeE sqrtQ ageOf data with
  | .ok m => m
  | .error _ => degenRec none 0

/-- The per-wallet record assembled by `enrich_wallet_data`, as far as
`is_hyper_scraper` inspects it: `analysis` is `None` (or absent) when the
portfolio fetch failed.  A falsy or analysis-less `wallet_data` argument is
the outer `none` of `Option WalletData`. -/
structure WalletData where
  analysis : Option Metrics

/-- `is_hyper_scraper` (unified_scraper.py lines 118-145).  Note the Python
truthiness tests: `analysis.get('trader_age_days', 0)` may be `None` or `0`,
and both `if trader_age_days and trader_age_days > 0` and
`if trader_age_days and trader_age_days < 30 and total_trades > 500` first
require the age to be truthy (present and nonzero). -/
def is_hyper_scraper (w : Option WalletData) : Bool :=
  match w with
  | none => false
  | some wd =>
    match wd.analysis with
    | none => false
    | some a =>
      let c1 : Bool :=
        match a.trader_age_days with
        | some d => decide (0 < d) && decide ((a.total_trades : ℚ) / (d : ℚ) > 50)
        | none => false
      let c2 : Bool :=
        match a.trader_age_days with
        | some d => decide (d ≠ 0) && decide (d < 30) && decide (500 < a.total_trades)
        | none => false
      c1 || c2

/-- One row of the merged dataframe, as far as `rank_by_performance`
inspects it (columns built in `create_merged_dataframe`). -/
structure WRow where
  sharpe_ratio : ℚ
  max_drawdown : ℚ
  win_rate : ℚ
  total_trades : ℕ
  is_hyper_scraper : Bool

/-- A ranked row: the base columns plus the normalization, score and rank
columns added by `rank_by_performance`. -/
structure ScoredRow where
  base : WRow
  sharpe_normalized : ℚ
  drawdown_normalized : ℚ
  winrate_normalized : ℚ
  performance_score : ℚ
  rank : ℕ

/-- The filtering stage of `rank_by_performance` (lines 277-285): drop
hyper scrapers when requested, then keep rows meeting the minimum
criteria. -/
def rankFilter (exclude : Bool) (min_sharpe max_dd : ℚ) (df : List WRow) :
    List WRow :=
  let df1 := if exclude then df.filter (fun r => r.is_hyper_scraper == false) else df
  df1.filter (fun r =>
    decide (min_sharpe ≤ r.sharpe_ratio) && decide (r.max_drawdown ≤ max_dd) &&
    decide (10 ≤ r.total_trades))

/-- The normalization and scoring stage (lines 289-307): min-max normalize
each column with a `1e-6` denominator cushion, invert the drawdown column,
and combine with weights 0.5 / 0.3 / 0.2.  `rank` is filled in later. -/
def scoreRows (df : List WRow) : List ScoredRow :=
  let sMin := listMin (df.map WRow.sharpe_ratio)
  let sMax := listMax (df.map WRow.sharpe_ratio)
  let dMin := listMin (df.map WRow.max_drawdown)
  let dMax := listMax (df.map WRow.max_drawdown)
  let wMin := listMin (df.map WRow.win_rate)
  let wMax := listMax (df.map WRow.win_rate)
  df.map (fun r =>
    let sn := (r.sharpe_ratio - sMin) / (sMax - sMin + 1 / 1000000)
    let dn := 1 - (r.max_drawdown - dMin) / (dMax - dMin + 1 / 1000000)
    let wn := (r.win_rate - wMin) / (wMax - wMin + 1 / 1000000)
    { base := r, sharpe_normalized := sn, drawdown_normalized := dn,
      winrate_normalized := wn,
      performance_score := 5/10 * sn + 3/10 * dn + 2/10 * wn,
      rank := 0 })

/-- `rank_by_performance` (lines 273-313).  An empty surviving set is
returned as-is with no scoring; otherwise rows are scored, sorted by
descending score and given dense 1-based ranks.  (The source sorts with
pandas `sort_values`, whose tie order is unspecified; a stable descending
sort is used here — no claim concerns tie order.) -/
def rank_by_performance (exclude : Bool) (min_sharpe max_dd : ℚ)
    (df : List WRow) : List ScoredRow :=
  let f := rankFilter exclude min_sharpe max_dd df
  if f.length = 0 then []
  else
    let sorted := (scoreRows f).mergeSort
      (fun a b => decide (b.performance_score ≤ a.performance_score))
    sorted.enum.map (fun p => { p.2 with rank := p.1 + 1 })

/-- Python's `str.lower()`, character-wise. -/
def lowerStr (s : String) : String := String.mk (s.data.map Char.toLower)

/-- The worker of `deduplicate_addresses`: `seen` is the set of lower-cased
addresses already kept. -/
def dedupGo (seen : List String) : List String → List String
  | [] => []
  | a :: rest =>
    if lowerStr a ∈ seen then dedupGo seen rest
    else a :: dedupGo (lowerStr a :: seen) rest

/-- `deduplicate_addresses` (unified_scraper.py lines 208-219): keep the
first occurrence of each case-insensitive address, in input order, with the
casing of that first occurrence. -/
def deduplicate_addresses (addresses : List String) : List String :=
  dedupGo [] addresses

/-- Helper for stating concrete payloads: a `[date, value]` history entry
with a numeric date. -/
def dayJ (d v : ℚ) : JVal := .arr [.num d, .num v]

/-- Helper for stating concrete payloads: the nested API response around a
pnl/equity history pair, so that `data[6][1]` reaches the object. -/
def mkData (pnl equity : List JVal) : JVal :=
  .arr [.null, .null, .null, .null, .null, .null,
    .arr [.str "perpMonth",
      .obj [("pnlHistory", .arr pnl), ("accountValueHistory", .arr equity)]]]

/-- Projection of a loop outcome: the transfer count and recorded day count
of a normally completed loop. -/
def runStats : Except Unit (Unit ⊕ LoopSt) → Option (ℕ × ℕ)
  | .ok (.inr s) => some (s.transfer_count, s.history.length)
  | _ => none

/-- Projection of a loop outcome: the recorded daily returns of a normally
completed loop. -/
def runDailys : Except Unit (Unit ⊕ LoopSt) → Option (List ℚ)
  | .ok (.inr s) => some (dailyList s)
  | _ => none

/-- A zero-return recorded day (equity 100, pnl 0). -/
def dZero : DayRec :=
  { equity := 100, pnl := 0, daily_pct_pnl := 0, drawdown := 0, drawdown_pct := 0 }

/-- A completed loop state with ten recorded zero-return days. -/
def tenDayState : LoopSt :=
  { history := [(.num 1, dZero), (.num 2, dZero), (.num 3, dZero),
      (.num 4, dZero), (.num 5, dZero), (.num 6, dZero), (.num 7, dZero),
      (.num 8, dZero), (.num 9, dZero), (.num 10, dZero)],
    cumulative_pnl := 0, running_max_cum_pnl := 0, win_days := 0,
    cum_pnl_pct := 1, transfer_count := 0 }

/-- C1 counterexample series: ten clean winning days (pnl 1 on equity 100),
then six transfer-classified days (an equity jump to 1000 not explained by
pnl, then five days of pnl 500 against flat equity 1000). -/
def c1pnl : List JVal :=
  [dayJ 0 0, dayJ 1 1, dayJ 2 1, dayJ 3 1, dayJ 4 1, dayJ 5 1, dayJ 6 1,
   dayJ 7 1, dayJ 8 1, dayJ 9 1, dayJ 10 1, dayJ 11 500, dayJ 12 500,
   dayJ 13 500, dayJ 14 500, dayJ 15 500, dayJ 16 500]

def c1equity : List JVal :=
  [dayJ 0 100, dayJ 1 100, dayJ 2 100, dayJ 3 100, dayJ 4 100, dayJ 5 100,
   dayJ 6 100, dayJ 7 100, dayJ 8 100, dayJ 9 100, dayJ 10 100,
   dayJ 11 1000, dayJ 12 1000, dayJ 13 1000, dayJ 14 1000, dayJ 15 1000,
   dayJ 16 1000]

/-- C1 witness series: the very first analyzed day has `prev_equity == 0`
and is not transfer-classified, so the degeneracy guard fires at once. -/
def c1wpnl : List JVal := [dayJ 0 0, dayJ 1 50]

def c1wequity : List JVal := [dayJ 0 0, dayJ 1 50]

/-- C2 counterexample record: an analysis with `trader_age_days = 0`
(a trader whose history started today) and 501 recorded days. -/
def c2rec : Metrics :=
  { sharpe := 0, max_drawdown := 0, win_rate := 0, cum_pnl_pct := 0,
    trader_age_days := some 0, total_trades := 501 }

/-- C2 witness record: the spec's own example, age 5 days and 600 trades. -/
def c2wrec : Metrics :=
  { sharpe := 0, max_drawdown := 0, win_rate := 0, cum_pnl_pct := 0,
    trader_age_days := some 5, total_trades := 600 }

/-- C3 counterexample series: eleven clean winning days whose last two
share the date 10, so eleven win-days land in a ten-key history dict. -/
def c3pnl : List JVal :=
  [dayJ 0 0, dayJ 1 1, dayJ 2 1, dayJ 3 1, dayJ 4 1, dayJ 5 1, dayJ 6 1,
   dayJ 7 1, dayJ 8 1, dayJ 9 1, dayJ 10 1, dayJ 10 1]

def c3equity : List JVal :=
  [dayJ 0 100, dayJ 1 100, dayJ 2 100, dayJ 3 100, dayJ 4 100, dayJ 5 100,
   dayJ 6 100, dayJ 7 100, dayJ 8 100, dayJ 9 100, dayJ 10 100, dayJ 10 100]

/-- C5 counterexample, full series: day 1 is a transfer-classified equity
jump (100 → 1000 with pnl 5); day 2 earns 4450 on prev equity 1000. -/
def c5pnlA : List JVal := [dayJ 0 0, dayJ 1 5, dayJ 2 4450]

def c5equityA : List JVal := [dayJ 0 100, dayJ 1 1000, dayJ 2 5000]

/-- C5 counterexample, the same series with the transfer day (index 1)
removed: day 2 now earns 4450 on prev equity 100. -/
def c5pnlB : List JVal := [dayJ 0 0, dayJ 2 4450]

def c5equityB : List JVal := [dayJ 0 100, dayJ 2 5000]

/-- The iteration-1 figures of the C5 full series. -/
def c5row1 : Row :=
  { day_pnl := 5, day_equity := 1000, date_pnl := .num 1,
    date_equity := .num 1, prev_equity := 100 }

/-- C10 witness series: three recorded days (the third crashing equity to
0), then a day whose `prev_equity == 0` fires the mid-loop guard. -/
def c10pnl : List JVal :=
  [dayJ 0 0, dayJ 1 1, dayJ 2 1, dayJ 3 (-100), dayJ 4 50]

def c10equity : List JVal :=
  [dayJ 0 100, dayJ 1 100, dayJ 2 100, dayJ 3 0, dayJ 4 50]

/-- The loop state after the three recorded days of the C10 witness
series, about to process index 4. -/
def c10state : LoopSt :=
  { history := [
      (.num 1, { equity := 100, pnl := 1, daily_pct_pnl := 1/100,
                 drawdown := 0, drawdown_pct := 0 }),
      (.num 2, { equity := 100, pnl := 1, daily_pct_pnl := 1/100,
                 drawdown := 0, drawdown_pct := 0 }),
      (.num 3, { equity := 0, pnl := -100, daily_pct_pnl := -1,
                 drawdown := 100, drawdown_pct := 0 })],
    cumulative_pnl := -98, running_max_cum_pnl := 2, win_days := 2,
    cum_pnl_pct := 0, transfer_count := 0 }

/-- C10 witness series for the post-loop branch: three recorded winning
days and nothing else. -/
def c10bpnl : List JVal := [dayJ 0 0, dayJ 1 1, dayJ 2 1, dayJ 3 1]

def c10bequity : List JVal := [dayJ 0 100, dayJ 1 100, dayJ 2 100, dayJ 3 100]

/-- The loop state after the C10 post-loop witness series completes. -/
def c10bstate : LoopSt :=
  { history := [
      (.num 1, { equity := 100, pnl := 1, daily_pct_pnl := 1/100,
                 drawdown := 0, drawdown_pct := 0 }),
      (.num 2, { equity := 100, pnl := 1, daily_pct_pnl := 1/100,
                 drawdown := 0, drawdown_pct := 0 }),
      (.num 3, { equity := 100, pnl := 1, daily_pct_pnl := 1/100,
                 drawdown := 0, drawdown_pct := 0 })],
    cumulative_pnl := 3, running_max_cum_pnl := 3, win_days := 3,
    cum_pnl_pct := 1030301/1000000, transfer_count := 0 }

/-- C7 witness dataframe: two surviving rows with identical sharpe. -/
def c7df : List WRow :=
  [{ sharpe_ratio := 2, max_drawdown := 1/10, win_rate := 1/2,
     total_trades := 12, is_hyper_scraper := false },
   { sharpe_ratio := 2, max_drawdown := 2/10, win_rate := 6/10,
     total_trades := 15, is_hyper_scraper := false }]

/-- The dates of the per-day pnl entries are pairwise distinct (whenever
two iterations both parse, their `date_pnl` values differ). -/
def DistinctDates (pnl equity : List JVal) : Prop :=
  ∀ i j ri rj, 1 ≤ i → i < j → rowOf pnl equity i = .ok ri →
    rowOf pnl equity j = .ok rj → jeq ri.date_pnl rj.date_pnl = false

/-- The two history keys of the payload object are distinct. -/
theorem keyBeq_false :
    (("pnlHistory" : String) == "accountValueHistory") = false := by
  decide

/-- C9: for every processed day, the drawdown computed in the code's order
(drawdown against the old running peak, peak updated afterwards) and the
updated peak coincide with the spec's order (peak updated first, drawdown
against the updated peak); the two formulations are equivalent on all
inputs. -/
theorem c9_drawdown_order_equiv (running_max cum : ℚ) :
    drawdownCodeOrder running_max cum = drawdownSpecOrder running_max cum := by
  unfold drawdownCodeOrder drawdownSpecOrder
  rcases le_total running_max cum with h | h
  · have h1 : running_max - cum ≤ 0 := sub_nonpos.mpr h
    rw [max_eq_right h, sub_self, max_self, max_eq_left h1]
  · rw [max_eq_left h]

/-- C6: `analyze_address` is a total function, and whenever its `try` body
raises (malformed payload, missing fields, mismatched series lengths), it
returns the degenerate record with unset trader age and day count 0. -/
theorem c6_exception_degenerate (sqrtQ : ℚ → ℚ) (ageOf : JVal → Option Int)
    (data : JVal) (h : analyzeE sqrtQ ageOf data = .error ()) :
    analyze_address sqrtQ ageOf data = degenRec none 0 := by
  unfold analyze_address
  rw [h]

/-- C6 witness: the malformed payload `null` raises inside the `try` body
and `analyze_address` returns the degenerate record. -/
theorem c6_witness :
    analyzeE (fun q => q) (fun _ => none) .null = .error () ∧
    analyze_address (fun q => q) (fun _ => none) .null = degenRec none 0 := by
  have h : analyzeE (fun q => q) (fun _ => none) .null = .error () := by
    norm_num [analyzeE, extractData, pyIndex]
  exact ⟨h, c6_exception_degenerate (fun q => q) (fun _ => none) .null h⟩

/-- C2 counterexample: the claim's criterion `(trader_age_days < 30 and
total_trades > 500)` holds for an analysis with age 0 and 501 trades, yet
`is_hyper_scraper` does not flag it (the code first requires the age to be
truthy, and `0` is falsy in Python). -/
theorem c2_counterexample :
    is_hyper_scraper (some { analysis := some c2rec }) = false ∧
    c2rec.trader_age_days = some 0 ∧ ((0 : Int) < 30 ∧ 500 < c2rec.total_trades) := by
  refine ⟨?_, by norm_num [c2rec], by norm_num [c2rec]⟩
  norm_num [is_hyper_scraper, c2rec]

/-- C2 (amended): a record with no analysis or a missing age is never
flagged, and a record with analysis and age `d` is flagged iff
`d > 0` and `total_trades / d > 50`, or `d` is nonzero, `d < 30` and
`total_trades > 500` (the `d ≠ 0` conjunct is the amendment forced by
Python's truthiness test on the age). -/
theorem c2_flag_iff :
    is_hyper_scraper none = false ∧
    (∀ wd : WalletData, wd.analysis = none → is_hyper_scraper (some wd) = false) ∧
    (∀ (wd : WalletData) (a : Metrics), wd.analysis = some a →
      a.trader_age_days = none → is_hyper_scraper (some wd) = false) ∧
    (∀ (wd : WalletData) (a : Metrics) (d : Int), wd.analysis = some a →
      a.trader_age_days = some d →
      (is_hyper_scraper (some wd) = true ↔
        ((0 < d ∧ 50 < (a.total_trades : ℚ) / (d : ℚ)) ∨
         (d ≠ 0 ∧ d < 30 ∧ 500 < a.total_trades)))) := by
  refine ⟨rfl, ?_, ?_, ?_⟩
  · intro wd h
    simp [is_hyper_scraper, h]
  · intro wd a ha hd
    simp [is_hyper_scraper, ha, hd]
  · intro wd a d ha hd
    simp [is_hyper_scraper, ha, hd, Bool.or_eq_true, Bool.and_eq_true,
      decide_eq_true_eq, gt_iff_lt, and_assoc]

/-- C2 witness: the spec's own example (age 5 days, 600 recorded days) is
flagged. -/
theorem c2_witness :
    is_hyper_scraper (some { analysis := some c2wrec }) = true := by
  exact (c2_flag_iff.2.2.2 { analysis := some c2wrec } c2wrec 5 rfl rfl).mpr
    (Or.inr ⟨by norm_num, by norm_num, by norm_num [c2wrec]⟩)

/-- C1 (amended): when the degeneracy guard is actually evaluated at some
iteration — the day's dates match and it is not transfer-classified — with
`prev_equity == 0` or more than 5 transfers counted, the loop returns the
mid-loop degenerate signal at once, regardless of all later days (`rest` is
universally quantified), and the analysis result is the zeroed degenerate
record.  (As stated the claim is false: the guard sits below the
date-mismatch and transfer `continue`s, see `c1_counterexample`.) -/
theorem c1_guard_shortcircuit :
    (∀ (equity rest : List JVal) (pe : JVal) (i : ℕ) (s : LoopSt) (r : Row),
      rowAt pe equity i = .ok r → stepRow s r = .ok none →
      loopGo equity (pe :: rest) i s = .ok (.inl ())) ∧
    (∀ (sqrtQ : ℚ → ℚ) (ageOf : JVal → Option Int) (data : JVal)
      (pnl equity : List JVal) (age : Option Int),
      extractData data = .ok (pnl, equity) → ageBlock ageOf pnl = .ok age →
      loopGo equity (pnl.drop 1) 1 initState = .ok (.inl ()) →
      analyze_address sqrtQ ageOf data = degenRec age 0) := by
  constructor
  · intro equity rest pe i s r hrow hstep
    simp [loopGo, hrow, hstep]
  · intro sq ag data pnl equity age hext hage hloop
    rw [List.drop_one] at hloop
    simp [analyze_address, analyzeE, hext, hage, hloop]

/-- C1 counterexample: on `c1pnl`/`c1equity` the cumulative transfer count
reaches 6 (exceeding 5) during the iteration, yet the final result is the
fully computed record with `win_rate = 1`, not the zeroed degenerate record
— every day after the sixth transfer is itself transfer-classified, so the
guard below the transfer `continue` is never evaluated again. -/
theorem c1_counterexample :
    runStats (loopGo c1equity (c1pnl.drop 1) 1 initState) = some (6, 10) ∧
    (analyze_address (fun q => q) (fun _ => none)
      (mkData c1pnl c1equity)).win_rate = 1 := by
  constructor
  · norm_num [runStats, c1pnl, c1equity, dayJ, loopGo, rowAt, cellF, pyIndex,
      pyFloat, stepRow, isTransferRow, accumulate, drawdownCodeOrder,
      hashableKey, dictInsert, jeq, initState]
  · norm_num [analyze_address, analyzeE, extractData, pyIndex, pyGet, asArr,
      List.find?, keyBeq_false, ageBlock, truthy, mkData, c1pnl, c1equity,
      dayJ, loopGo, rowAt, cellF, pyFloat, stepRow, isTransferRow, accumulate,
      drawdownCodeOrder, hashableKey, dictInsert, jeq, initState, finalMetrics,
      degenRec, dailyList, meanOf, varianceOf, listMax]

/-- C1 witness: a series whose first analyzed day reaches the guard with
`prev_equity == 0`; the analysis returns the zeroed degenerate record. -/
theorem c1_witness :
    analyze_address (fun q => q) (fun _ => none) (mkData c1wpnl c1wequity) =
      degenRec none 0 := by
  have hdrop : c1wpnl.drop 1 = [dayJ 1 50] := by norm_num [c1wpnl]
  have hrow : rowAt (dayJ 1 50) c1wequity 1 =
      .ok { day_pnl := 50, day_equity := 50, date_pnl := .num 1,
            date_equity := .num 1, prev_equity := 0 } := by
    norm_num [rowAt, c1wequity, dayJ, cellF, pyIndex, pyFloat]
  have hstep : stepRow initState
      { day_pnl := 50, day_equity := 50, date_pnl := .num 1,
        date_equity := .num 1, prev_equity := 0 } = .ok none := by
    norm_num [stepRow, isTransferRow, initState, jeq]
  have hloop : loopGo c1wequity (c1wpnl.drop 1) 1 initState = .ok (.inl ()) := by
    rw [hdrop]
    exact c1_guard_shortcircuit.1 c1wequity [] (dayJ 1 50) 1 initState _ hrow hstep
  exact c1_guard_shortcircuit.2 (fun q => q) (fun _ => none)
    (mkData c1wpnl c1wequity) c1wpnl c1wequity none
    (by norm_num [extractData, mkData, pyIndex, pyGet, asArr, List.find?,
      keyBeq_false])
    (by norm_num [ageBlock, c1wpnl, dayJ, truthy]) hloop

/-- C10: the mid-loop degenerate return reports `total_trades = 0` no
matter how many days were already recorded, while the post-loop
insufficient-history return reports the actual recorded day count. -/
theorem c10_trades_reporting :
    (∀ (sqrtQ : ℚ → ℚ) (ageOf : JVal → Option Int) (data : JVal)
      (pnl equity rest : List JVal) (pe : JVal) (age : Option Int)
      (i : ℕ) (s : LoopSt) (r : Row),
      extractData data = .ok (pnl, equity) → ageBlock ageOf pnl = .ok age →
      loopGo equity (pnl.drop 1) 1 initState = loopGo equity (pe :: rest) i s →
      rowAt pe equity i = .ok r → stepRow s r = .ok none →
      (analyze_address sqrtQ ageOf data).total_trades = 0) ∧
    (∀ (sqrtQ : ℚ → ℚ) (ageOf : JVal → Option Int) (data : JVal)
      (pnl equity : List JVal) (age : Option Int) (s : LoopSt),
      extractData data = .ok (pnl, equity) → ageBlock ageOf pnl = .ok age →
      loopGo equity (pnl.drop 1) 1 initState = .ok (.inr s) →
      s.history.length < 10 →
      (analyze_address sqrtQ ageOf data).total_trades = s.history.length) := by
  constructor
  · intro sq ag data pnl equity rest pe age i s r hext hage hreach hrow hstep
    have hl : loopGo equity (pe :: rest) i s = .ok (.inl ()) := by
      simp [loopGo, hrow, hstep]
    have hloop : loopGo equity (pnl.drop 1) 1 initState = .ok (.inl ()) :=
      hreach.trans hl
    rw [List.drop_one] at hloop
    simp [analyze_address, analyzeE, hext, hage, hloop, degenRec]
  · intro sq ag data pnl equity age s hext hage hloop hlen
    rw [List.drop_one] at hloop
    simp [analyze_address, analyzeE, hext, hage, hloop, finalMetrics, hlen,
      degenRec]

/-- C10 witness: on `c10pnl`/`c10equity` three days are recorded before the
guard fires at index 4, and the result still reports `total_trades = 0`; on
the truncated series `c10bpnl`/`c10bequity` the loop completes with the
same three recorded days and the result reports `total_trades = 3`. -/
theorem c10_witness :
    loopGo c10equity ((c10pnl.drop 1).take 3) 1 initState = .ok (.inr c10state) ∧
    c10state.history.length = 3 ∧
    (analyze_address (fun q => q) (fun _ => none)
      (mkData c10pnl c10equity)).total_trades = 0 ∧
    (analyze_address (fun q => q) (fun _ => none)
      (mkData c10bpnl c10bequity)).total_trades = 3 := by
  refine ⟨?_, by norm_num [c10state], ?_, ?_⟩
  · norm_num [c10pnl, c10equity, c10state, dayJ, loopGo, rowAt, cellF, pyIndex,
      pyFloat, stepRow, isTransferRow, accumulate, drawdownCodeOrder,
      hashableKey, dictInsert, jeq, initState]
  · exact c10_trades_reporting.1 (fun q => q) (fun _ => none)
      (mkData c10pnl c10equity) c10pnl c10equity [] (dayJ 4 50) none 4 c10state
      { day_pnl := 50, day_equity := 50, date_pnl := .num 4,
        date_equity := .num 4, prev_equity := 0 }
      (by norm_num [extractData, mkData, pyIndex, pyGet, asArr, List.find?,
        keyBeq_false])
      (by norm_num [ageBlock, c10pnl, dayJ, truthy])
      (by norm_num [c10pnl, c10equity, c10state, dayJ, loopGo, rowAt, cellF,
        pyIndex, pyFloat, stepRow, isTransferRow, accumulate,
        drawdownCodeOrder, hashableKey, dictInsert, jeq, initState])
      (by norm_num [rowAt, c10equity, dayJ, cellF, pyIndex, pyFloat])
      (by norm_num [stepRow, isTransferRow, c10state, jeq])
  · have hstate : loopGo c10bequity (c10bpnl.drop 1) 1 initState =
        .ok (.inr c10bstate) := by
      norm_num [c10bpnl, c10bequity, c10bstate, dayJ, loopGo, rowAt, cellF,
        pyIndex, pyFloat, stepRow, isTransferRow, accumulate,
        drawdownCodeOrder, hashableKey, dictInsert, jeq, initState]
    have h3 : c10bstate.history.length = 3 := by norm_num [c10bstate]
    have := c10_trades_reporting.2 (fun q => q) (fun _ => none)
      (mkData c10bpnl c10bequity) c10bpnl c10bequity none c10bstate
      (by norm_num [extractData, mkData, pyIndex, pyGet, asArr, List.find?,
        keyBeq_false])
      (by norm_num [ageBlock, c10bpnl, dayJ, truthy])
      hstate (by rw [h3]; norm_num)
    exact this.trans h3

/-- C5 (amended, part of a conjunction): a transfer-classified day (with
matching dates) only increments the transfer counter — cumulative PnL, the
running peak, the history dict (drawdown/return series) and the win/day
counts are untouched; and removing a day at index `i` from both series
leaves the extracted figures (hence the computed `daily_return`) of every
day other than the immediate successor `i+1` unchanged — indices below `i`
keep their figures verbatim, indices `j ≥ i+2` reappear at `j-1` with the
same figures.  (The successor day is genuinely affected: its `prev_equity`
reference moves, see `c5_counterexample`.) -/
theorem c5_transfer_day_isolated :
    (∀ (s : LoopSt) (r : Row), jeq r.date_pnl r.date_equity = true →
      isTransferRow r →
      stepRow s r = .ok (some { s with transfer_count := s.transfer_count + 1 })) ∧
    (∀ (pnl equity : List JVal) (i j : ℕ), j < i →
      rowOf (pnl.eraseIdx i) (equity.eraseIdx i) j = rowOf pnl equity j) ∧
    (∀ (pnl equity : List JVal) (i j : ℕ), i + 2 ≤ j →
      rowOf (pnl.eraseIdx i) (equity.eraseIdx i) (j - 1) = rowOf pnl equity j) := by
  refine ⟨?_, ?_, ?_⟩
  · intro s r hdate htr
    simp [stepRow, hdate, htr]
  · intro pnl equity i j hj
    have hj1 : j - 1 < i := lt_of_le_of_lt (Nat.sub_le j 1) hj
    simp [rowOf, rowAt, List.getElem?_eraseIdx, hj, hj1]
  · intro pnl equity i j hj
    have h1 : ¬ (j - 1 < i) := by omega
    have h2 : ¬ (j - 1 - 1 < i) := by omega
    have e1 : j - 1 + 1 = j := by omega
    have e2 : j - 1 - 1 + 1 = j - 1 := by omega
    simp [rowOf, rowAt, List.getElem?_eraseIdx, h1, h2, e1, e2]

/-- C5 counterexample: removing the transfer-classified day at index 1 of
`c5pnlA`/`c5equityA` changes the recorded `daily_return` of the remaining
day from `4450/1000 = 89/20` to `4450/100 = 89/2`, because that day's
`prev_equity` reference moves from `equity[1]` to `equity[0]`. -/
theorem c5_counterexample :
    c5pnlB = c5pnlA.eraseIdx 1 ∧ c5equityB = c5equityA.eraseIdx 1 ∧
    rowOf c5pnlA c5equityA 1 = .ok c5row1 ∧ isTransferRow c5row1 ∧
    runDailys (loopGo c5equityA (c5pnlA.drop 1) 1 initState) = some [89/20] ∧
    runDailys (loopGo c5equityB (c5pnlB.drop 1) 1 initState) = some [89/2] ∧
    (89 : ℚ)/20 ≠ 89/2 := by
  refine ⟨by norm_num [c5pnlA, c5pnlB], by norm_num [c5equityA, c5equityB],
    ?_, by norm_num [isTransferRow, c5row1], ?_, ?_, by norm_num⟩
  · norm_num [rowOf, rowAt, c5pnlA, c5equityA, c5row1, dayJ, cellF, pyIndex,
      pyFloat]
  · norm_num [runDailys, c5pnlA, c5equityA, dayJ, loopGo, rowAt, cellF,
      pyIndex, pyFloat, stepRow, isTransferRow, accumulate, drawdownCodeOrder,
      hashableKey, dictInsert, jeq, initState, dailyList]
  · norm_num [runDailys, c5pnlB, c5equityB, dayJ, loopGo, rowAt, cellF,
      pyIndex, pyFloat, stepRow, isTransferRow, accumulate, drawdownCodeOrder,
      hashableKey, dictInsert, jeq, initState, dailyList]

/-- C5 witness: the amended theorem applied to the concrete transfer day of
`c5pnlA` and to concrete non-successor indices. -/
theorem c5_witness :
    stepRow initState c5row1 =
      .ok (some { initState with transfer_count := initState.transfer_count + 1 }) ∧
    rowOf (c5pnlA.eraseIdx 2) (c5equityA.eraseIdx 2) 1 = rowOf c5pnlA c5equityA 1 ∧
    rowOf (c5pnlA.eraseIdx 0) (c5equityA.eraseIdx 0) 1 = rowOf c5pnlA c5equityA 2 := by
  refine ⟨?_, ?_, ?_⟩
  · exact c5_transfer_day_isolated.1 initState c5row1
      (by norm_num [c5row1, jeq]) (by norm_num [isTransferRow, c5row1])
  · exact c5_transfer_day_isolated.2.1 c5pnlA c5equityA 2 1 (by norm_num)
  · exact c5_transfer_day_isolated.2.2 c5pnlA c5equityA 0 2 (by norm_num)

/-- Auxiliary: `dedupGo` is idempotent for every `seen` set. -/
theorem dedupGo_idem (seen : List String) (l : List String) :
    dedupGo seen (dedupGo seen l) = dedupGo seen l := by
  induction l generalizing seen with
  | nil => simp [dedupGo]
  | cons a rest ih =>
    by_cases h : lowerStr a ∈ seen
    · simp [dedupGo, h, ih]
    · simp [dedupGo, h, ih]

/-- Auxiliary: `dedupGo` keeps a subsequence of its input. -/
theorem dedupGo_sublist (seen : List String) (l : List String) :
    (dedupGo seen l).Sublist l := by
  induction l generalizing seen with
  | nil => simp [dedupGo]
  | cons a rest ih =>
    by_cases h : lowerStr a ∈ seen
    · simp only [dedupGo, if_pos h]
      exact (ih seen).cons a
    · simp only [dedupGo, if_neg h]
      exact (ih _).cons₂ a

/-- Auxiliary: every kept address has a lower-case form outside `seen`. -/
theorem dedupGo_lower_not_seen (seen : List String) (l : List String) :
    ∀ x ∈ dedupGo seen l, lowerStr x ∉ seen := by
  induction l generalizing seen with
  | nil => simp [dedupGo]
  | cons a rest ih =>
    by_cases h : lowerStr a ∈ seen
    · simp only [dedupGo, if_pos h]
      exact ih seen
    · simp only [dedupGo, if_neg h]
      intro x hx
      rcases List.mem_cons.mp hx with rfl | hx'
      · exact h
      · intro hs
        exact ih _ x hx' (List.mem_cons_of_mem _ hs)

/-- Auxiliary: the lower-cased kept addresses are pairwise distinct. -/
theorem dedupGo_nodup (seen : List String) (l : List String) :
    ((dedupGo seen l).map lowerStr).Nodup := by
  induction l generalizing seen with
  | nil => simp [dedupGo]
  | cons a rest ih =>
    by_cases h : lowerStr a ∈ seen
    · simp only [dedupGo, if_pos h]
      exact ih seen
    · simp only [dedupGo, if_neg h, List.map_cons]
      refine List.nodup_cons.mpr ⟨?_, ih _⟩
      intro hmem
      rcases List.mem_map.mp hmem with ⟨y, hy, hy2⟩
      exact (dedupGo_lower_not_seen _ _ y hy) (hy2 ▸ List.mem_cons_self _ _)

/-- Auxiliary: every input address is represented among the kept ones
(unless its class was already in `seen`). -/
theorem dedupGo_covers (seen : List String) (l : List String) :
    ∀ x ∈ l, lowerStr x ∈ seen ∨ lowerStr x ∈ (dedupGo seen l).map lowerStr := by
  induction l generalizing seen with
  | nil => simp
  | cons a rest ih =>
    intro x hx
    by_cases h : lowerStr a ∈ seen
    · simp only [dedupGo, if_pos h]
      rcases List.mem_cons.mp hx with rfl | hx'
      · exact Or.inl h
      · exact ih seen x hx'
    · simp only [dedupGo, if_neg h, List.map_cons]
      rcases List.mem_cons.mp hx with rfl | hx'
      · exact Or.inr (List.mem_cons_self _ _)
      · rcases ih (lowerStr a :: seen) x hx' with hc | hc
        · rcases List.mem_cons.mp hc with heq | hs
          · exact Or.inr (heq ▸ List.mem_cons_self _ _)
          · exact Or.inl hs
        · exact Or.inr (List.mem_cons_of_mem _ hc)

/-- Auxiliary: every kept address is the first of its case class (up to the
classes already in `seen`). -/
theorem dedupGo_first (seen : List String) (l : List String) :
    ∀ y ∈ dedupGo seen l, ∃ t u, l = t ++ y :: u ∧
      ∀ z ∈ t, lowerStr z ∈ seen ∨ lowerStr z ≠ lowerStr y := by
  induction l generalizing seen with
  | nil => simp [dedupGo]
  | cons a rest ih =>
    intro y hy
    by_cases h : lowerStr a ∈ seen
    · simp only [dedupGo, if_pos h] at hy
      rcases ih seen y hy with ⟨t, u, rfl, hall⟩
      refine ⟨a :: t, u, rfl, ?_⟩
      intro z hz
      rcases List.mem_cons.mp hz with rfl | hz'
      · exact Or.inl h
      · exact hall z hz'
    · simp only [dedupGo, if_neg h] at hy
      rcases List.mem_cons.mp hy with rfl | hy'
      · exact ⟨[], rest, rfl, by simp⟩
      · rcases ih (lowerStr a :: seen) y hy' with ⟨t, u, rfl, hall⟩
        have hyn : lowerStr y ∉ lowerStr a :: seen :=
          dedupGo_lower_not_seen _ _ y hy'
        refine ⟨a :: t, u, rfl, ?_⟩
        intro z hz
        rcases List.mem_cons.mp hz with rfl | hz'
        · right
          intro hEq
          exact hyn (by rw [← hEq]; exact List.mem_cons_self _ _)
        · rcases hall z hz' with hs | hne
          · rcases List.mem_cons.mp hs with heq | hs'
            · right
              intro hEq
              exact hyn (by rw [← hEq, heq]; exact List.mem_cons_self _ _)
            · exact Or.inl hs'
          · exact Or.inr hne

/-- C8: `deduplicate_addresses` is idempotent, and keeps exactly the first
occurrence of each case-insensitive address: the output is a subsequence of
the input (order and casing preserved), its lower-cased entries are
pairwise distinct, every input address's class is represented, and each
kept address is preceded in the input by no address of the same class. -/
theorem c8_dedup_first_occurrence :
    (∀ l, deduplicate_addresses (deduplicate_addresses l) =
      deduplicate_addresses l) ∧
    (∀ l, (deduplicate_addresses l).Sublist l) ∧
    (∀ l, ((deduplicate_addresses l).map lowerStr).Nodup) ∧
    (∀ l, ∀ x ∈ l, lowerStr x ∈ (deduplicate_addresses l).map lowerStr) ∧
    (∀ l, ∀ y ∈ deduplicate_addresses l, ∃ t u, l = t ++ y :: u ∧
      ∀ z ∈ t, lowerStr z ≠ lowerStr y) := by
  refine ⟨fun l => dedupGo_idem [] l, fun l => dedupGo_sublist [] l,
    fun l => dedupGo_nodup [] l, ?_, ?_⟩
  · intro l x hx
    rcases dedupGo_covers [] l x hx with h | h
    · simp at h
    · exact h
  · intro l y hy
    rcases dedupGo_first [] l y hy with ⟨t, u, rfl, hall⟩
    refine ⟨t, u, rfl, ?_⟩
    intro z hz
    rcases hall z hz with h | h
    · simp at h
    · exact h

/-- C8 witness: the spec's example `[A, a, B]` deduplicates to `[A, B]`,
idempotently, and `a`'s class is represented by the kept `A`. -/
theorem c8_witness :
    deduplicate_addresses ["A", "a", "B"] = ["A", "B"] ∧
    deduplicate_addresses (deduplicate_addresses ["A", "a", "B"]) =
      deduplicate_addresses ["A", "a", "B"] ∧
    lowerStr "a" ∈ (deduplicate_addresses ["A", "a", "B"]).map lowerStr := by
  refine ⟨?_, c8_dedup_first_occurrence.1 ["A", "a", "B"],
    c8_dedup_first_occurrence.2.2.2.1 ["A", "a", "B"] "a" (by simp)⟩
  decide

/-- Auxiliary: a left fold with `min` never exceeds its seed. -/
theorem foldl_min_le_init (a : ℚ) (l : List ℚ) : l.foldl min a ≤ a := by
  induction l generalizing a with
  | nil => exact le_refl a
  | cons x xs ih => exact le_trans (ih (min a x)) (min_le_left a x)

/-- Auxiliary: a left fold with `max` dominates its seed. -/
theorem init_le_foldl_max (a : ℚ) (l : List ℚ) : a ≤ l.foldl max a := by
  induction l generalizing a with
  | nil => exact le_refl a
  | cons x xs ih => exact le_trans (le_max_left a x) (ih (max a x))

/-- Auxiliary: the minimum of a nonempty column never exceeds its
maximum. -/
theorem listMin_le_listMax (l : List ℚ) (h : l ≠ []) : listMin l ≤ listMax l := by
  cases l with
  | nil => exact absurd rfl h
  | cons x xs =>
    calc listMin (x :: xs) = xs.foldl min x := rfl
    _ ≤ x := foldl_min_le_init x xs
    _ ≤ xs.foldl max x := init_le_foldl_max x xs
    _ = listMax (x :: xs) := rfl

/-- C7: an empty surviving set is returned empty with no scoring; a
non-empty surviving set has every min-max normalization denominator equal
to the column spread plus `1e-6`, which is strictly positive even for an
all-equal column, and every surviving entry receives a score (the ranked
output has one row per surviving row). -/
theorem c7_ranker_safety :
    (∀ (ex : Bool) (ms md : ℚ) (df : List WRow),
      rankFilter ex ms md df = [] → rank_by_performance ex ms md df = []) ∧
    (∀ (ex : Bool) (ms md : ℚ) (df : List WRow),
      rankFilter ex ms md df ≠ [] →
      0 < listMax ((rankFilter ex ms md df).map WRow.sharpe_ratio) -
          listMin ((rankFilter ex ms md df).map WRow.sharpe_ratio) + 1/1000000 ∧
      0 < listMax ((rankFilter ex ms md df).map WRow.max_drawdown) -
          listMin ((rankFilter ex ms md df).map WRow.max_drawdown) + 1/1000000 ∧
      0 < listMax ((rankFilter ex ms md df).map WRow.win_rate) -
          listMin ((rankFilter ex ms md df).map WRow.win_rate) + 1/1000000 ∧
      (rank_by_performance ex ms md df).length =
        (rankFilter ex ms md df).length) := by
  constructor
  · intro ex ms md df h
    simp [rank_by_performance, h]
  · intro ex ms md df h
    have key : ∀ f : WRow → ℚ,
        0 < listMax ((rankFilter ex ms md df).map f) -
          listMin ((rankFilter ex ms md df).map f) + 1/1000000 := by
      intro f
      have hne : (rankFilter ex ms md df).map f ≠ [] := by
        intro hf
        exact h (List.map_eq_nil_iff.mp hf)
      have := listMin_le_listMax _ hne
      linarith
    refine ⟨key _, key _, key _, ?_⟩
    have hlen : ¬ (rankFilter ex ms md df).length = 0 := by
      simpa [List.length_eq_zero] using h
    simp [rank_by_performance, hlen, List.length_map, List.enum_length,
      List.length_mergeSort, scoreRows]

/-- C7 witness: the ranker on an empty frame, and on a concrete two-row
frame whose sharpe column is all-equal (zero spread). -/
theorem c7_witness :
    rank_by_performance true 0 1 [] = [] ∧
    0 < listMax ((rankFilter true 0 1 c7df).map WRow.sharpe_ratio) -
        listMin ((rankFilter true 0 1 c7df).map WRow.sharpe_ratio) + 1/1000000 ∧
    (rank_by_performance true 0 1 c7df).length =
      (rankFilter true 0 1 c7df).length := by
  have hne : rankFilter true 0 1 c7df ≠ [] := by
    intro hEq
    norm_num [rankFilter, c7df, List.filter] at hEq
    exact List.cons_ne_nil _ _ hEq
  exact ⟨c7_ranker_safety.1 true 0 1 [] (by norm_num [rankFilter]),
    (c7_ranker_safety.2 true 0 1 c7df hne).1,
    (c7_ranker_safety.2 true 0 1 c7df hne).2.2.2⟩

/-- Auxiliary: every successful analysis result is either a mid-loop or
post-extraction degenerate record, or the post-loop metrics of the final
loop state. -/
theorem analyzeE_ok_cases (sq : ℚ → ℚ) (ag : JVal → Option Int) (data : JVal)
    (m : Metrics) (h : analyzeE sq ag data = .ok m) :
    (∃ age, m = degenRec age 0) ∨
    (∃ pnl equity age s, extractData data = .ok (pnl, equity) ∧
      loopGo equity (pnl.drop 1) 1 initState = .ok (.inr s) ∧
      m = finalMetrics sq age s) := by
  unfold analyzeE at h
  cases hext : extractData data with
  | error e => rw [hext] at h; simp at h
  | ok pq =>
    obtain ⟨pnl, equity⟩ := pq
    rw [hext] at h
    simp only [] at h
    cases hage : ageBlock ag pnl with
    | error e => rw [hage] at h; simp at h
    | ok age =>
      rw [hage] at h
      cases hloop : loopGo equity (pnl.drop 1) 1 initState with
      | error e => rw [hloop] at h; simp at h
      | ok out =>
        rw [hloop] at h
        cases out with
        | inl u =>
          simp at h
          exact Or.inl ⟨age, h.symm⟩
        | inr s =>
          simp at h
          exact Or.inr ⟨pnl, equity, age, s, rfl, hloop, h.symm⟩

/-- Auxiliary: the sharpe field of the post-loop metrics, laid out as the
two source guards (insufficient history, near-zero deviation). -/
theorem finalMetrics_sharpe_eq (sqrtQ : ℚ → ℚ) (age : Option Int) (s : LoopSt) :
    (finalMetrics sqrtQ age s).sharpe =
      if s.history.length < 10 then 0
      else if varianceOf s = 0 ∨ varianceOf s < 1 / 10 ^ 20 then 0
      else sqrtQ 365 * (meanOf s / sqrtQ (varianceOf s)) := by
  unfold finalMetrics
  by_cases hlen : s.history.length < 10
  · rw [if_pos hlen, if_pos hlen]
    rfl
  · rw [if_neg hlen, if_neg hlen]

/-- C4: whenever the population standard deviation of the recorded daily
returns (the real square root of `varianceOf`) is below `1e-10` — which
covers a zero deviation, while a NaN deviation cannot arise in exact
arithmetic — the returned sharpe is 0; and for every input, the sharpe of
the returned record is either the literal 0 or the guarded quotient whose
denominator is provably nonzero (the exact-arithmetic reading of "never
NaN and never infinite"). -/
theorem c4_sharpe_guard :
    (∀ (sqrtQ : ℚ → ℚ) (age : Option Int) (s : LoopSt),
      Real.sqrt ((varianceOf s : ℚ) : ℝ) < 1 / 10 ^ 10 →
      (finalMetrics sqrtQ age s).sharpe = 0) ∧
    (∀ sqrtQ : ℚ → ℚ, (∀ x : ℚ, 0 < x → 0 < sqrtQ x) →
      ∀ (ageOf : JVal → Option Int) (data : JVal),
      (analyze_address sqrtQ ageOf data).sharpe = 0 ∨
      ∃ s : LoopSt,
        (analyze_address sqrtQ ageOf data).sharpe =
          sqrtQ 365 * (meanOf s / sqrtQ (varianceOf s)) ∧
        sqrtQ (varianceOf s) ≠ 0) := by
  constructor
  · intro sq age s hstd
    have hv : varianceOf s < 1 / 10 ^ 20 := by
      have h2 : ((varianceOf s : ℚ) : ℝ) < (1 / 10 ^ 10 : ℝ) ^ 2 :=
        (Real.sqrt_lt' (by norm_num)).mp hstd
      have h3 : ((1 : ℝ) / 10 ^ 10) ^ 2 = ((1 / 10 ^ 20 : ℚ) : ℝ) := by norm_num
      rw [h3] at h2
      exact_mod_cast h2
    rw [finalMetrics_sharpe_eq]
    by_cases hlen : s.history.length < 10
    · rw [if_pos hlen]
    · rw [if_neg hlen, if_pos (Or.inr hv)]
  · intro sq hsq ag data
    unfold analyze_address
    cases hE : analyzeE sq ag data with
    | error e => simp [degenRec]
    | ok m =>
      rcases analyzeE_ok_cases sq ag data m hE with ⟨age, rfl⟩ |
        ⟨pnl, equity, age, s, hext, hloop, rfl⟩
      · exact Or.inl rfl
      · show (finalMetrics sq age s).sharpe = 0 ∨ _
        rw [finalMetrics_sharpe_eq]
        by_cases hlen : s.history.length < 10
        · left
          rw [if_pos hlen]
        · rw [if_neg hlen]
          by_cases hg : varianceOf s = 0 ∨ varianceOf s < 1 / 10 ^ 20
          · left
            rw [if_pos hg]
          · right
            refine ⟨s, by rw [if_neg hg], ?_⟩
            push_neg at hg
            have hpos : 0 < varianceOf s := lt_of_lt_of_le (by norm_num) hg.2
            exact ne_of_gt (hsq _ hpos)

/-- C4 witness: a ten-day state of zero returns has standard deviation 0
and sharpe 0; the second part applied with the identity square-root
surrogate at the `null` payload. -/
theorem c4_witness :
    (finalMetrics (fun q => q) none tenDayState).sharpe = 0 ∧
    ((analyze_address (fun q => q) (fun _ => none) .null).sharpe = 0 ∨
      ∃ s : LoopSt,
        (analyze_address (fun q => q) (fun _ => none) .null).sharpe =
          365 * (meanOf s / varianceOf s) ∧ varianceOf s ≠ 0) := by
  constructor
  · apply c4_sharpe_guard.1
    have hv : varianceOf tenDayState = 0 := by
      norm_num [varianceOf, dailyList, meanOf, tenDayState, dZero]
    rw [hv]
    norm_num [Real.sqrt_zero]
  · exact c4_sharpe_guard.2 (fun q => q) (fun x hx => hx) (fun _ => none) .null

/-- Auxiliary: inserting a fresh date into the history dict appends it. -/
theorem dictInsert_fresh (k : JVal) (v : DayRec) (h : List (JVal × DayRec))
    (hf : ∀ p ∈ h, jeq p.1 k = false) :
    dictInsert k v h = h ++ [(k, v)] := by
  unfold dictInsert
  have hany : h.any (fun p => jeq p.1 k) = false := by
    rw [List.any_eq_false]
    intro p hp
    simp [hf p hp]
  rw [hany]
  simp

/-- Auxiliary (C3): along the loop, when every upcoming date is fresh for
the accumulated history and the upcoming dates are pairwise distinct, the
win-day counter never exceeds the history size. -/
theorem loopGo_winDays_le (equity : List JVal) :
    ∀ (rest : List JVal) (i : ℕ) (s : LoopSt),
      s.win_days ≤ s.history.length →
      (∀ k ∈ s.history.map Prod.fst, ∀ n pe' r', rest[n]? = some pe' →
        rowAt pe' equity (i + n) = .ok r' → jeq k r'.date_pnl = false) →
      (∀ m n p1 p2 r1 r2, m < n → rest[m]? = some p1 → rest[n]? = some p2 →
        rowAt p1 equity (i + m) = .ok r1 → rowAt p2 equity (i + n) = .ok r2 →
        jeq r1.date_pnl r2.date_pnl = false) →
      ∀ s', loopGo equity rest i s = .ok (.inr s') →
        s'.win_days ≤ s'.history.length := by
  intro rest
  induction rest with
  | nil =>
    intro i s hwl _ _ s' hrun
    simp only [loopGo] at hrun
    simp at hrun
    exact hrun ▸ hwl
  | cons pe rest ih =>
    intro i s hwl hkeys hpair s' hrun
    have keys_shift : ∀ k : JVal,
        (∀ n pe' r', (pe :: rest)[n]? = some pe' →
          rowAt pe' equity (i + n) = .ok r' → jeq k r'.date_pnl = false) →
        ∀ n pe' r', rest[n]? = some pe' →
          rowAt pe' equity (i + 1 + n) = .ok r' → jeq k r'.date_pnl = false := by
      intro k hk n pe' r' hn hr'
      have e : i + 1 + n = i + (n + 1) := by omega
      rw [e] at hr'
      exact hk (n + 1) pe' r' (by simpa using hn) hr'
    have pair_shift :
        ∀ m n p1 p2 r1 r2, m < n → rest[m]? = some p1 → rest[n]? = some p2 →
          rowAt p1 equity (i + 1 + m) = .ok r1 →
          rowAt p2 equity (i + 1 + n) = .ok r2 →
          jeq r1.date_pnl r2.date_pnl = false := by
      intro m n p1 p2 r1 r2 hmn h1 h2 hr1 hr2
      have e1 : i + 1 + m = i + (m + 1) := by omega
      have e2 : i + 1 + n = i + (n + 1) := by omega
      rw [e1] at hr1
      rw [e2] at hr2
      exact hpair (m + 1) (n + 1) p1 p2 r1 r2 (by omega)
        (by simpa using h1) (by simpa using h2) hr1 hr2
    simp only [loopGo] at hrun
    cases hrow : rowAt pe equity i with
    | error e =>
      rw [hrow] at hrun
      simp at hrun
    | ok r =>
      rw [hrow] at hrun
      simp only [] at hrun
      cases hstep : stepRow s r with
      | error e =>
        rw [hstep] at hrun
        simp at hrun
      | ok o =>
        rw [hstep] at hrun
        cases o with
        | none => simp at hrun
        | some s2 =>
          simp only [] at hrun
          unfold stepRow at hstep
          by_cases hdate : jeq r.date_pnl r.date_equity = false
          · rw [if_pos hdate] at hstep
            simp at hstep
            subst hstep
            exact ih (i + 1) s hwl
              (fun k hk => keys_shift k (hkeys k hk)) pair_shift s' hrun
          · rw [if_neg hdate] at hstep
            by_cases htr : isTransferRow r
            · rw [if_pos htr] at hstep
              simp at hstep
              subst hstep
              exact ih (i + 1) { s with transfer_count := s.transfer_count + 1 }
                hwl (fun k hk => keys_shift k (hkeys k hk)) pair_shift s' hrun
            · rw [if_neg htr] at hstep
              by_cases hg : r.prev_equity = 0 ∨ s.transfer_count > 5
              · rw [if_pos hg] at hstep
                simp at hstep
              · rw [if_neg hg] at hstep
                unfold accumulate at hstep
                by_cases hh : hashableKey r.date_pnl = true
                · rw [if_pos hh] at hstep
                  simp only [] at hstep
                  simp at hstep
                  have hfresh : ∀ p ∈ s.history, jeq p.1 r.date_pnl = false := by
                    intro p hp
                    refine hkeys p.1 (List.mem_map_of_mem Prod.fst hp) 0 pe r
                      (by simp) ?_
                    simpa using hrow
                  subst hstep
                  have hins := dictInsert_fresh r.date_pnl
                    { equity := r.day_equity, pnl := r.day_pnl,
                      daily_pct_pnl := r.day_pnl / r.prev_equity,
                      drawdown :=
                        (drawdownCodeOrder s.running_max_cum_pnl
                          (s.cumulative_pnl + r.day_pnl)).1,
                      drawdown_pct :=
                        if 0 < r.day_equity then
                          (drawdownCodeOrder s.running_max_cum_pnl
                            (s.cumulative_pnl + r.day_pnl)).1 / r.day_equity
                        else 0 } s.history hfresh
                  refine ih (i + 1) _ ?_ ?_ pair_shift s' hrun
                  · show s.win_days + _ ≤ (dictInsert _ _ _).length
                    rw [hins, List.length_append]
                    have hite : (if 0 < r.day_pnl / r.prev_equity then 1 else 0) ≤ 1 := by
                      split <;> norm_num
                    simp only [List.length_singleton]
                    omega
                  · intro k hk
                    show ∀ n pe' r', rest[n]? = some pe' →
                      rowAt pe' equity (i + 1 + n) = .ok r' →
                      jeq k r'.date_pnl = false
                    have hk2 : k ∈ (dictInsert r.date_pnl _ s.history).map Prod.fst := hk
                    rw [hins, List.map_append] at hk2
                    rcases List.mem_append.mp hk2 with hold | hnew
                    · exact keys_shift k (hkeys k hold)
                    · simp at hnew
                      subst hnew
                      intro n pe' r' hn hr'
                      have e : i + 1 + n = i + (n + 1) := by omega
                      rw [e] at hr'
                      exact hpair 0 (n + 1) pe pe' r r' (by omega) (by simp)
                        (by simpa using hn) (by simpa using hrow) hr'
                · rw [if_neg hh] at hstep
                  simp at hstep

/-- C3 (amended): the non-degenerate win rate is the number of processed
days with positive daily return divided by the number of recorded days
(dict keys); when the processed dates are pairwise distinct those two
counts agree and the win rate lies in [0, 1].  (With repeated dates the
counter can exceed the dict size, see `c3_counterexample`.) -/
theorem c3_win_rate_bounds :
    (∀ (sqrtQ : ℚ → ℚ) (age : Option Int) (s : LoopSt),
      ¬ s.history.length < 10 →
      (finalMetrics sqrtQ age s).win_rate =
        (s.win_days : ℚ) / (s.history.length : ℚ)) ∧
    (∀ (sqrtQ : ℚ → ℚ) (ageOf : JVal → Option Int) (data : JVal),
      (∀ pnl equity, extractData data = .ok (pnl, equity) →
        DistinctDates pnl equity) →
      0 ≤ (analyze_address sqrtQ ageOf data).win_rate ∧
      (analyze_address sqrtQ ageOf data).win_rate ≤ 1) := by
  constructor
  · intro sq age s hlen
    unfold finalMetrics
    rw [if_neg hlen]
  · intro sq ag data hdist
    unfold analyze_address
    cases hE : analyzeE sq ag data with
    | error e => norm_num [degenRec]
    | ok m =>
      rcases analyzeE_ok_cases sq ag data m hE with ⟨age, rfl⟩ |
        ⟨pnl, equity, age, s, hext, hloop, rfl⟩
      · norm_num [degenRec]
      · have hdd := hdist pnl equity hext
        have hwl : s.win_days ≤ s.history.length := by
          refine loopGo_winDays_le equity (pnl.drop 1) 1 initState ?_ ?_ ?_ s hloop
          · norm_num [initState]
          · intro k hk
            simp [initState] at hk
          · intro m n p1 p2 r1 r2 hmn h1 h2 hr1 hr2
            rw [List.getElem?_drop] at h1 h2
            have hro1 : rowOf pnl equity (1 + m) = .ok r1 := by
              unfold rowOf
              rw [h1]
              exact hr1
            have hro2 : rowOf pnl equity (1 + n) = .ok r2 := by
              unfold rowOf
              rw [h2]
              exact hr2
            exact hdd (1 + m) (1 + n) r1 r2 (by omega) (by omega) hro1 hro2
        show 0 ≤ (finalMetrics sq age s).win_rate ∧
          (finalMetrics sq age s).win_rate ≤ 1
        unfold finalMetrics
        by_cases hlen : s.history.length < 10
        · rw [if_pos hlen]
          norm_num [degenRec]
        · rw [if_neg hlen]
          have hpos : (0 : ℚ) < (s.history.length : ℚ) := by
            have h10 : 10 ≤ s.history.length := Nat.le_of_not_lt hlen
            exact_mod_cast Nat.lt_of_lt_of_le (by norm_num) h10
          constructor
          · show (0 : ℚ) ≤ (s.win_days : ℚ) / (s.history.length : ℚ)
            exact div_nonneg (Nat.cast_nonneg _) hpos.le
          · show (s.win_days : ℚ) / (s.history.length : ℚ) ≤ 1
            exact (div_le_one hpos).mpr (by exact_mod_cast hwl)

/-- C3 counterexample: on `c3pnl`/`c3equity` (eleven winning days, two of
which share the date 10) the computed win rate is `11/10`, strictly above
1 — the win-day counter counts processed days while the denominator counts
distinct dict keys. -/
theorem c3_counterexample :
    (analyze_address (fun q => q) (fun _ => none)
      (mkData c3pnl c3equity)).win_rate = 11/10 ∧ ¬ ((11 : ℚ)/10 ≤ 1) := by
  constructor
  · norm_num [analyze_address, analyzeE, extractData, pyIndex, pyGet, asArr,
      List.find?, keyBeq_false, ageBlock, truthy, mkData, c3pnl, c3equity,
      dayJ, loopGo, rowAt, cellF, pyFloat, stepRow, isTransferRow, accumulate,
      drawdownCodeOrder, hashableKey, dictInsert, jeq, initState, finalMetrics,
      degenRec, dailyList, meanOf, varianceOf, listMax]
  · norm_num

/-- C3 witness: the win-rate formula on a concrete ten-day state, and the
[0,1] bounds at a payload (vacuously distinct dates). -/
theorem c3_witness :
    (finalMetrics (fun q => q) none tenDayState).win_rate =
      (tenDayState.win_days : ℚ) / (tenDayState.history.length : ℚ) ∧
    0 ≤ (analyze_address (fun q => q) (fun _ => none) .null).win_rate ∧
    (analyze_address (fun q => q) (fun _ => none) .null).win_rate ≤ 1 := by
  have hb := c3_win_rate_bounds.2 (fun q => q) (fun _ => none) .null
    (fun pnl equity h => by
      norm_num [extractData, pyIndex] at h
      exact Except.noConfusion h)
  exact ⟨c3_win_rate_bounds.1 (fun q => q) none tenDayState
    (by norm_num [tenDayState]), hb.1, hb.2⟩
